import Mathlib

/- Rational arithmetic must evaluate inside `decide` witnesses; Batteries
marks these operations `@[irreducible]` for elaboration performance
only, so restoring the default reducibility is semantically neutral. -/
set_option allowUnsafeReducibility true in
attribute [semireducible] Rat.add Rat.mul Rat.inv Rat.sub

/-!
Verification of the TESS local pipeline's numeric core against its
natural-language specification.

The development shallowly embeds the pure numeric kernels of
`src/preprocess_photometric.py`, `src/generate_apertures.py` and
`src/generate_astroseismic_signal.py`.  Machine floats are modelled as
exact rationals (`ℚ`); numpy exceptions are modelled with
`Except String`; numpy arrays are modelled either as lists of rows or as
dimension-carrying index functions.  Comparisons the source makes on
square roots (standard deviations, Euclidean distances) are encoded by
the equivalent comparisons on squares, which is exact because both sides
are non-negative reals; the bridging equivalences are proved where a
claim's statement mentions the square root itself.
-/

namespace Tess

/-- Insert into a sorted list, preserving order. -/
def insertSorted [LinearOrder α] (x : α) : List α → List α
  | [] => [x]
  | y :: ys => if x ≤ y then x :: y :: ys else y :: insertSorted x ys

/-- Model of `np.sort` (ascending).  Insertion sort; the ascending rearrangement of
a list of values from a linear order is unique, so this agrees with
numpy's sort. -/
def sortAsc [LinearOrder α] (xs : List α) : List α := xs.foldr insertSorted []

/-- Model of `np.median`: sort the sample; take the middle element, or the mean of the
two middle elements for an even-sized sample.  `median [] = 0` is a
formal default (numpy would return NaN); every use below is on a
nonempty sample or behind a nonemptiness guard. -/
def median (xs : List ℚ) : ℚ :=
  let s := sortAsc xs
  let n := xs.length
  if n = 0 then 0
  else if n % 2 = 1 then s.getD (n / 2) 0
  else (s.getD (n / 2 - 1) 0 + s.getD (n / 2) 0) / 2

/-- Model of `np.mean`. -/
def mean (xs : List ℚ) : ℚ := xs.sum / xs.length

/-- Model of `np.std(xs)^2`: the population variance (ddof = 0), i.e. the mean of the
squared deviations from the mean.  The source compares `np.std` (the
square root of this) against non-negative thresholds only, so every
comparison is encoded on the squares. -/
def variance (xs : List ℚ) : ℚ :=
  (xs.map (fun x => (x - mean xs) ^ 2)).sum / xs.length

/-- Embedding of `clip_3sigma` (preprocess_photometric.py:101): keep the values within
3 standard deviations of the median.  `|x − median| < 3·std` is encoded
as `(x − median)² < 9·variance`, exact since `std = √variance ≥ 0`. -/
def clip_3sigma (tile : List ℚ) : List ℚ :=
  tile.filter (fun x => (x - median tile) ^ 2 < 9 * variance tile)

/-- Embedding of `tile_mode` (preprocess_photometric.py:115): the robust mode of a tile.
The source condition `clipped.size and np.std(clipped) < 0.3 * np.median(clipped)`
is encoded square-free:  `std < 0.3·m ↔ 0 < m ∧ variance < (0.3·m)²`
(if `m ≤ 0` the right-hand side of the source comparison is ≤ 0 ≤ std). -/
def tile_mode (tile : List ℚ) : ℚ :=
  let clipped := clip_3sigma tile
  if clipped ≠ [] ∧ 0 < median clipped ∧
      variance clipped < (3 / 10 * median clipped) ^ 2 then
    5 / 2 * median clipped - 3 / 2 * mean clipped
  else
    median tile

/-- A 2-D numpy array: its shape and a total index function (reads outside
the shape are never used by the embedded code except through the
explicit bounds/wrap-around model `npGetWrap` below). -/
structure NpImage where
  h : Nat
  w : Nat
  data : Nat → Nat → ℚ

/-- Embedding of `view_as_blocks_custom` (preprocess_photometric.py:131): reshape into
non-overlapping `a × b` blocks via
`arr.reshape(m // a, a, n // b, b).swapaxes(1, 2)`.
`np.reshape` raises `ValueError` unless the element counts agree, i.e.
unless `m·n = (m/a)·a·((n/b)·b)`; in the successful case row-major
reshaping plus the axis swap places source element `(I·a+i, J·b+j)` at
block position `(I, J, i, j)`. -/
def view_as_blocks_custom (arr : NpImage) (a b : Nat) :
    Except String (Nat → Nat → Nat → Nat → ℚ) :=
  if arr.h * arr.w = arr.h / a * a * (arr.w / b * b) then
    .ok (fun I J i j => arr.data (I * a + i) (J * b + j))
  else
    .error "cannot reshape array"

/-- The flattened list of values of an `a × b` block `(I, J)` of a block
view, row-major, as consumed by `tile_mode` (a numpy reduction over the
tile sees all its elements; the 2-D layout is irrelevant to median,
mean and std). -/
def blockValues (blocks : Nat → Nat → Nat → Nat → ℚ) (I J a b : Nat) : List ℚ :=
  ((List.range a).map (fun i => (List.range b).map (fun j => blocks I J i j))).flatten

/-- Model of `scipy.ndimage.median_filter(grid, size=3)` on an `ny × nx` grid with
the default `reflect` border mode: at the border, offset −1 reflects to
index 0 and offset `n` reflects to `n − 1`. -/
def medianFilter3 (g : Nat → Nat → ℚ) (ny nx : Nat) : Nat → Nat → ℚ :=
  fun i j =>
    let refl : Nat → Int → Nat := fun n k =>
      if k < 0 then 0 else if (n : Int) ≤ k then n - 1 else k.toNat
    median (((List.range 3).map (fun di =>
      (List.range 3).map (fun dj =>
        g (refl ny ((i : Int) + di - 1)) (refl nx ((j : Int) + dj - 1))))).flatten)

/-- Embedding of `estimate_square_background` (preprocess_photometric.py:147): tile the
image, take the robust mode per tile, smooth the mode grid with a 3×3
median filter, and upsample back to full resolution.
`scipy.interpolate.RectBivariateSpline` is not modelled: the upsampling
step is abstracted as the `spline` parameter, which receives the
smoothed mode grid and its dimensions.  The tiling reshape can raise
(`ValueError` from `np.reshape`), and nothing in this function or its
callers catches it — modelled by `Except`. -/
def estimate_square_background
    (spline : (Nat → Nat → ℚ) → Nat → Nat → Nat → Nat → ℚ)
    (image : NpImage) (tile_size : Nat) : Except String NpImage := do
  let blocks ← view_as_blocks_custom image tile_size tile_size
  let ny := image.h / tile_size
  let nx := image.w / tile_size
  let mode_grid := fun I J => tile_mode (blockValues blocks I J tile_size tile_size)
  let mode_grid_smoothed := medianFilter3 mode_grid ny nx
  pure ⟨image.h, image.w, spline mode_grid_smoothed ny nx⟩

/-- Pointwise image subtraction (numpy `-` on same-shape arrays; every use
in the embedded code is on arrays of the same shape). -/
def imSub (x y : NpImage) : NpImage := ⟨x.h, x.w, fun i j => x.data i j - y.data i j⟩

/-- Pointwise image addition. -/
def imAdd (x y : NpImage) : NpImage := ⟨x.h, x.w, fun i j => x.data i j + y.data i j⟩

/-- Embedding of `iterative_background_estimation` (preprocess_photometric.py:204):
`reduce(update, range(iterations), initial)` where
`initial = (estimate_square(image), estimate_radial(image))` and one
`update` step re-estimates the radial background from
`image − b_square` and then the square background from
`image − new_b_radial`.  The two estimators are taken as parameters
(`sqEst` is `estimate_square_background` with its spline and tile size
applied; `radEst` is `estimate_radial_background` with the CCD position,
start radius and bin width applied); a Python exception in either
propagates, hence `Except`. -/
def iterative_background_estimation
    (sqEst radEst : NpImage → Except String NpImage)
    (image : NpImage) (iterations : Nat) : Except String NpImage := do
  let init_sq ← sqEst image
  let init_rad ← radEst image
  let bt ← (List.range iterations).foldlM
    (fun (bt : NpImage × NpImage) (_ : Nat) => do
      let new_b_radial ← radEst (imSub image bt.1)
      let new_b_square ← sqEst (imSub image new_b_radial)
      pure (new_b_square, new_b_radial))
    (init_sq, init_rad)
  pure (imAdd bt.1 bt.2)

/-- Embedding of `process_image` (preprocess_photometric.py:239): estimate the
background with the default 3 iterations and subtract it from the raw
image. -/
def process_image (sqEst radEst : NpImage → Except String NpImage)
    (image : NpImage) : Except String NpImage := do
  let background ← iterative_background_estimation sqEst radEst image 3
  pure (imSub image background)

/-- Embedding of `get_ccd_position` (preprocess_photometric.py:257): map the CCD number
to (side, vertical); any value other than 1–4 raises `ValueError`. -/
def get_ccd_position (ccd : Int) : Except String (String × String) :=
  if ccd = 1 then .ok ("left", "top")
  else if ccd = 2 then .ok ("right", "top")
  else if ccd = 3 then .ok ("left", "bottom")
  else if ccd = 4 then .ok ("right", "bottom")
  else .error "Invalid CCD value; must be 1, 2, 3, or 4."

/-- The per-unit inputs of `process_single_ffi` (preprocess_photometric.py:281)
that decide its control flow.  The image payload and the numeric
processing are elided here (they are modelled separately above); what is
modelled is the unit's error routing: `download_ok` / `upload_ok` stand
for the absence of a `botocore` `ClientError` in the corresponding S3
call. -/
structure FfiDoc where
  s3_key : String
  ccd : Int
  download_ok : Bool
  upload_ok : Bool
deriving DecidableEq

/-- Embedding of the `process_single_ffi` error routing: a download `ClientError` is caught
and **returned** as a status string; `get_ccd_position` is called outside
any `try`, so its `ValueError` propagates (modelled `.error`); an upload
`ClientError` is caught and returned as a status string. -/
def process_single_ffi (doc : FfiDoc) : Except String String :=
  if doc.download_ok = false then
    .ok ("Error downloading " ++ doc.s3_key)
  else
    match get_ccd_position doc.ccd with
    | .error e => .error e
    | .ok _ =>
      if doc.upload_ok then .ok ("Processed " ++ doc.s3_key ++ " successfully.")
      else .ok ("Error uploading " ++ doc.s3_key)

/-- The result-collection loop of `main` (preprocess_photometric.py:320):
`for future in as_completed(...): result = future.result(); ...`.
`future.result()` re-raises an exception from the worker inside the
parent's loop, which aborts the loop (and `main`) with that exception;
results not yet retrieved are never reported.  `as_completed` yields in
completion order; the fold models one visit order, and an uncaught unit
error aborts collection under every order. -/
def collect_results (docs : List FfiDoc) : Except String (List String) :=
  docs.foldlM (fun acc doc => (process_single_ffi doc).map (fun r => acc ++ [r])) []

/- --------------------- generate_apertures.py --------------------- -/

/-- Images handed to the aperture detector, as a list of rows (row-major,
matching numpy's flattening and `np.argwhere` ordering). -/
abbrev GridImage := List (List ℚ)

/-- Minimum of a nonempty sample (`np.min`); `d` is a formal default for
the empty list, never reached behind the guards below. -/
def listMin (xs : List ℚ) (d : ℚ) : ℚ :=
  match xs with
  | [] => d
  | x :: r => r.foldl min x

/-- Maximum of a nonempty sample (`np.max`). -/
def listMax (xs : List ℚ) (d : ℚ) : ℚ :=
  match xs with
  | [] => d
  | x :: r => r.foldl max x

/-- Scan for the first maximum: remaining list, index of the next element,
best index so far, best value so far. -/
def argmaxAux : List Nat → Nat → Nat → Nat → Nat
  | [], _, bi, _ => bi
  | x :: xs, i, bi, bv =>
    if bv < x then argmaxAux xs (i + 1) i x else argmaxAux xs (i + 1) bi bv

/-- Index of the first maximum of a list (`np.argmax`); 0 on the empty
list. -/
def argmaxFirst (l : List Nat) : Nat :=
  match l with
  | [] => 0
  | x :: xs => argmaxAux xs 1 0 x

/-- Embedding of `flux_threshold` (generate_apertures.py:46): histogram the flattened
image into 100 equal bins, take the midpoint of the fullest bin as the
mode, and return `mode + 0.8 · MAD`.  `np.histogram` edges are
`linspace(min, max, 101)`; a value falls in bin `i` when
`edges[i] ≤ v < edges[i+1]`, except that the last bin is closed on the
right (and `v ≤ max` always holds, so the last bin's test is just its
left edge). -/
def flux_threshold (image : GridImage) : ℚ :=
  let flat := image.flatten
  let mn := listMin flat 0
  let mx := listMax flat 0
  let edge : Nat → ℚ := fun i => mn + (mx - mn) * i / 100
  let hist : List Nat := (List.range 100).map (fun i =>
    flat.countP (fun v => decide (edge i ≤ v) && (decide (v < edge (i + 1)) || decide (i = 99))))
  let k := argmaxFirst hist
  let mode_val := (edge k + edge (k + 1)) / 2
  let median_val := median flat
  let mad := median (flat.map (fun v => |v - median_val|))
  mode_val + 4 / 5 * mad

/-- Model of `np.argwhere(image > threshold)` in row-major order. -/
def high_intensity_pixels (image : GridImage) : List (Nat × Nat) :=
  (image.enum.map (fun r =>
    r.2.enum.filterMap (fun c =>
      if flux_threshold image < c.2 then some (r.1, c.1) else none))).flatten

/-- Embedding of `filtered_dbscan` (generate_apertures.py:60): select the pixels above
the flux threshold and **raise `ValueError` when there are none**
(`if high_intensity_pixels.size == 0: raise ValueError(...)`).  The
DBSCAN labelling of the nonempty case is downstream of this guard and is
not needed by any claim, so only the selected pixel list is returned. -/
def filtered_dbscan (image : GridImage) : Except String (List (Nat × Nat)) :=
  let hp := high_intensity_pixels image
  if hp = [] then .error "No high-intensity pixels found."
  else .ok hp

/-- An Aperture document as inserted into `stars.apertures`
(generate_apertures.py:257). -/
structure Aperture where
  cluster_label : String
  centroid : ℚ × ℚ
  pixels : List (ℚ × ℚ)
deriving DecidableEq

/-- Model of `np.unique`: the sorted list of distinct values. -/
def uniqueSorted (l : List Int) : List Int :=
  (sortAsc l).dedup

/-- The emission loop of `get_apertures` (generate_apertures.py:236–261):
for each distinct refined label other than −1, gather that cluster's
pixels (the high-intensity pixels whose refined label matches), **skip
the cluster when it has fewer than 4 pixels**, and otherwise emit an
Aperture whose centroid and member pixels are converted to world
coordinates.  `wcs.all_pix2world` (an astrometric distortion model) is
abstracted as the `pix2world` parameter; it is applied in the source's
`(col, row)` order. -/
def get_apertures_emit (filename : String) (pix2world : ℚ × ℚ → ℚ × ℚ)
    (hi_pixels : List (Nat × Nat)) (refined_labels : List Int) : List Aperture :=
  let paired := hi_pixels.zip refined_labels
  ((uniqueSorted refined_labels).filter (fun lab => lab ≠ -1)).filterMap (fun lab =>
    let pixel_indices := (paired.filter (fun p => p.2 = lab)).map (·.1)
    if pixel_indices.length < 4 then none
    else
      let n : ℚ := pixel_indices.length
      let centroid_row := (pixel_indices.map (fun p => (p.1 : ℚ))).sum / n
      let centroid_col := (pixel_indices.map (fun p => (p.2 : ℚ))).sum / n
      some { cluster_label := filename ++ "_" ++ toString lab
             centroid := pix2world (centroid_col, centroid_row)
             pixels := pixel_indices.map (fun p => pix2world ((p.2 : ℚ), (p.1 : ℚ))) })

/- ---------------- watershed_patch (generate_apertures.py:89) ---------------- -/

/-- A pixel position inside a patch. -/
abbrev Cell := Nat × Nat

/-- A boolean patch (the `seg[...] == l` mask handed to `watershed_patch`);
numpy arrays are rectangular, which theorems assume via an explicit
row-length hypothesis. -/
abbrev Patch := List (List Bool)

/-- Number of rows of a patch. -/
def patchRows (p : Patch) : Nat := p.length

/-- Number of columns of a patch (the length of its first row). -/
def patchCols (p : Patch) : Nat := (p.headD []).length

/-- Foreground test; reads outside the patch are `false` (out-of-patch
pixels are background only notionally — scipy's EDT likewise only sees
zeros that are inside the array, see `edtSq`). -/
def fgAt (p : Patch) (c : Cell) : Bool := (p.getD c.1 []).getD c.2 false

/-- Model of `patch.sum()` on a boolean patch: the number of `True` pixels. -/
def patchSum (p : Patch) : Nat := (p.map (fun row => row.countP id)).sum

/-- All cells of an `r × c` grid in row-major order. -/
def allCells (r c : Nat) : List Cell :=
  ((List.range r).map (fun i => (List.range c).map (fun j => (i, j)))).flatten

/-- The background cells of a patch (the in-array zeros scipy's EDT
measures distances to). -/
def bgCells (p : Patch) : List Cell :=
  (allCells (patchRows p) (patchCols p)).filter (fun c => !fgAt p c)

/-- Squared Euclidean distance between two cells. -/
def sqDist (a b : Cell) : Nat :=
  ((a.1 : Int) - b.1).natAbs ^ 2 + ((a.2 : Int) - b.2).natAbs ^ 2

/-- Model of `scipy.ndimage.distance_transform_edt(patch)`, squared: the squared
distance from each foreground pixel to the nearest in-array background
pixel, and 0 on background pixels.  All comparisons the source makes on
the EDT (a 2×2 maximum filter, equality with it, and the flooding order
on its negation) are order/equality comparisons of square roots of these
values, so comparing the squares is exact.  A patch with no background
pixel gets an unreachable sentinel; the theorems about this path assume
a background pixel exists. -/
def edtSq (p : Patch) (c : Cell) : Nat :=
  if fgAt p c then
    match (bgCells p).map (sqDist c) with
    | [] => patchRows p ^ 2 + patchCols p ^ 2 + 1
    | d :: ds => ds.foldl min d
  else 0

/-- Model of `scipy.ndimage.maximum_filter(dist, size=2)` (squared values): with
`size=2` and the default origin the window at `(i, j)` covers offsets
`{−1, 0} × {−1, 0}`, and the default `reflect` border maps index −1 to
index 0 — exactly truncated `Nat` subtraction. -/
def maxFilter2 (d : Cell → Nat) (c : Cell) : Nat :=
  max (max (d (c.1 - 1, c.2 - 1)) (d (c.1 - 1, c.2)))
      (max (d (c.1, c.2 - 1)) (d c))

/-- The source line `local_max = dist == maximum_filter(dist, size=2)`. -/
def localMax (p : Patch) (c : Cell) : Bool :=
  edtSq p c == maxFilter2 (edtSq p) c

/-- The source expression `local_max * patch`: the marker mask fed to `scipy.ndimage.label`. -/
def markerCell (p : Patch) (c : Cell) : Bool :=
  localMax p c && fgAt p c

/-- The 4-connectivity neighbourhood (the default cross-shaped structuring
element of `scipy.ndimage.label`, and connectivity 1 of
`skimage.watershed`).  `Nat` truncation at the border yields the cell
itself, which every use below tolerates (a cell is never its own new
neighbour for labelling purposes). -/
def neighbors4 (c : Cell) : List Cell :=
  [(c.1 - 1, c.2), (c.1 + 1, c.2), (c.1, c.2 - 1), (c.1, c.2 + 1)]

/-- One growth step of a connected-component closure: add the unvisited
marker neighbours of the current cell set. -/
def closureStep (isM : Cell → Bool) (cur : List Cell) : List Cell :=
  cur ++ (((cur.map neighbors4).flatten).filter
    (fun q => isM q && !cur.contains q)).dedup

/-- The connected component of `seed` in the marker mask, by fuelled
closure (fuel = grid size reaches any component). -/
def closure (isM : Cell → Bool) (fuel : Nat) (seed : Cell) : List Cell :=
  (closureStep isM)^[fuel] [seed]

/-- Raster scan of `scipy.ndimage.label`: walk the cells in row-major
order; each still-unlabelled marker cell starts a new component. -/
def buildComps (isM : Cell → Bool) (fuel : Nat) :
    List Cell → List (List Cell) → List (List Cell)
  | [], acc => acc
  | p :: rest, acc =>
    if isM p && !acc.any (fun comp => comp.contains p) then
      buildComps isM fuel rest (acc ++ [closure isM fuel p])
    else
      buildComps isM fuel rest acc

/-- The components of the marker mask of a patch, in discovery order;
`scipy.ndimage.label` numbers them 1, 2, … in this order and its
`markers.max()` is the number of components. -/
def labelComps (p : Patch) : List (List Cell) :=
  buildComps (markerCell p) (patchRows p * patchCols p)
    (allCells (patchRows p) (patchCols p)) []

/-- The marker label of a cell: 1 + the index of the first component
containing it, 0 if none. -/
def markersAt : List (List Cell) → Cell → Nat
  | [], _ => 0
  | comp :: rest, c =>
    if comp.contains c then 1
    else match markersAt rest c with
      | 0 => 0
      | n => n + 1

/-- The label state of the flood, as the list of labelled cells (a cell
absent from the list has label 0). -/
abbrev LabelState := List (Cell × Nat)

/-- Label of a cell in a flood state; 0 when unlabelled. -/
def labelLookup (assign : LabelState) (c : Cell) : Nat :=
  match assign.find? (fun e => e.1 = c) with
  | some e => e.2
  | none => 0

/-- The initial flood state: every marker cell with its marker label. -/
def markerState (comps : List (List Cell)) : List Cell → LabelState
  | [] => []
  | c :: rest =>
    match markersAt comps c with
    | 0 => markerState comps rest
    | n => (c, n) :: markerState comps rest

/-- The flooding frontier: in-mask unlabelled cells with a labelled
4-neighbour. -/
def wsCandidates (cells : List Cell) (mask : Cell → Bool) (assign : LabelState) :
    List Cell :=
  cells.filter (fun p =>
    mask p && labelLookup assign p == 0 &&
      (neighbors4 p).any (fun q => labelLookup assign q != 0))

/-- The frontier cell flooded next: `watershed(-dist, ...)` floods in
ascending `-dist`, i.e. the frontier cell with the greatest distance
first; ties go to the earliest cell in row-major order (the library's
tie-breaking is implementation-defined — the spec itself flags it as an
open question — and no claim depends on it). -/
def pickBest (d : Cell → Nat) : List Cell → Option Cell
  | [] => none
  | x :: xs => some (xs.foldl (fun b q => if d b < d q then q else b) x)

/-- One flooding step: label the best frontier cell with its first
labelled neighbour's label.  The new entry is appended, so the label of
an already-labelled cell never changes. -/
def floodStep (d : Cell → Nat) (cells : List Cell) (mask : Cell → Bool)
    (assign : LabelState) : LabelState :=
  match pickBest d (wsCandidates cells mask assign) with
  | none => assign
  | some p =>
    match (neighbors4 p).find? (fun q => labelLookup assign q != 0) with
    | none => assign
    | some q => assign ++ [(p, labelLookup assign q)]

/-- Model of `skimage.segmentation.watershed(-dist, markers, mask=patch)`: flood
the mask from the markers; marker pixels keep their labels.  Fuel
`cells.length` bounds the number of cells that can be labelled. -/
def watershedFlood (d : Cell → Nat) (comps : List (List Cell)) (mask : Cell → Bool)
    (cells : List Cell) : Cell → Nat :=
  labelLookup ((floodStep d cells mask)^[cells.length] (markerState comps cells))

/-- Embedding of `watershed_patch` (generate_apertures.py:89): keep the patch as one
label (`patch.astype(int)`) when its pixel count is below `min_pixels`
or the marker labelling finds fewer than two markers; otherwise split it
by watershed on the negated distance transform. -/
def watershed_patch (args : Nat × Nat × Nat × Nat × Patch × Nat) :
    Nat × Nat × Nat × Nat × (Cell → Nat) :=
  let (row_min, row_max, col_min, col_max, patch, min_pixels) := args
  let ws_result :=
    if patchSum patch < min_pixels then
      fun c => if fgAt patch c then 1 else 0
    else
      let comps := labelComps patch
      if comps.length < 2 then
        fun c => if fgAt patch c then 1 else 0
      else
        watershedFlood (edtSq patch) comps (fgAt patch)
          (allCells (patchRows patch) (patchCols patch))
  (row_min, row_max, col_min, col_max, ws_result)

/- ------------- generate_astroseismic_signal.py ------------- -/

/-- The constant `IMAGE_SHAPE` (generate_astroseismic_signal.py:33): the `(ny, nx)`
constant the bounding box is clamped against. -/
def IMAGE_SHAPE : Nat × Nat := (2136, 2078)

/-- Model of `np.round` followed by `astype(int)`: round half to even (numpy
rounding), then the integral float converts exactly. -/
def npRound (q : ℚ) : Int :=
  let f := ⌊q⌋
  let r := q - f
  if r < 1 / 2 then f
  else if 1 / 2 < r then f + 1
  else if f % 2 = 0 then f else f + 1

/-- Numpy integer-array indexing `image[i, j]`: an index in
`[-n, n)` is accepted, a negative index wraps to the opposite edge
(`i + n`), anything else raises `IndexError`. -/
def npGetWrap (img : NpImage) (i j : Int) : Except String ℚ :=
  if -(img.h : Int) ≤ i ∧ i < img.h ∧ -(img.w : Int) ≤ j ∧ j < img.w then
    .ok (img.data (if i < 0 then i + img.h else i).toNat
                  (if j < 0 then j + img.w else j).toNat)
  else
    .error "index out of bounds"

/-- Model of `np.sum(image[y0:y1, x0:x1])` for non-negative starts (`y0, x0 ≥ 0`
holds at every use site via `max(0, ·)`): numpy slices clamp the stop to
the array extent and an empty range sums to 0. -/
def sliceSum (img : NpImage) (y0 y1 x0 x1 : Int) : ℚ :=
  ((List.range (min y1 (img.h : Int) - y0).toNat).map (fun a =>
    ((List.range (min x1 (img.w : Int) - x0).toNat).map (fun b =>
      img.data (y0 + (a : Int)).toNat (x0 + (b : Int)).toNat)).sum)).sum

/-- Embedding of `compute_fluxes` (generate_astroseismic_signal.py:43): round the
projected coordinates to integer pixels, sum the image there (numpy
fancy indexing — negative indices wrap, out-of-range indices raise),
then sum the bounding box expanded by 5 px and clamped to
`IMAGE_SHAPE`, and subtract.  `pix_coords` rows are `(x, y)` pairs, and
`image[ys, xs]` indexes row `y`, column `x`.  On an empty coordinate
list the fancy-index sum is 0 but `np.min(xs)` raises `ValueError`. -/
def compute_fluxes (image : NpImage) (pix_coords : List (ℚ × ℚ)) :
    Except String (ℚ × ℚ) := do
  let int_coords := pix_coords.map (fun p => (npRound p.1, npRound p.2))
  let xs := int_coords.map (·.1)
  let ys := int_coords.map (·.2)
  let vals ← int_coords.mapM (fun p => npGetWrap image p.2 p.1)
  let cluster_flux := vals.sum
  match xs, ys with
  | x0 :: xr, y0 :: yr =>
    let x_min := max 0 (xr.foldl min x0 - 5)
    let y_min := max 0 (yr.foldl min y0 - 5)
    let x_max := min ((IMAGE_SHAPE.2 : Int) - 1) (xr.foldl max x0 + 5)
    let y_max := min ((IMAGE_SHAPE.1 : Int) - 1) (yr.foldl max y0 + 5)
    let bounding_box_flux := sliceSum image y_min (y_max + 1) x_min (x_max + 1)
    pure (cluster_flux, bounding_box_flux - cluster_flux)
  | _, _ => .error "zero-size array to reduction operation minimum which has no identity"

/- =================== Shared lemmas =================== -/

theorem variance_nonneg (xs : List ℚ) : 0 ≤ variance xs := by
  unfold variance
  apply div_nonneg
  · apply List.sum_nonneg
    intro x hx
    obtain ⟨y, _, rfl⟩ := List.mem_map.mp hx
    positivity
  · exact_mod_cast Nat.zero_le _

theorem abs_lt_three_sqrt_iff (a v : ℚ) (hv : 0 ≤ v) :
    |(a : ℝ)| < 3 * Real.sqrt v ↔ a ^ 2 < 9 * v := by
  have hv' : (0 : ℝ) ≤ (v : ℝ) := by exact_mod_cast hv
  have h3 : (3 : ℝ) * Real.sqrt v = Real.sqrt (9 * v) := by
    rw [show (9 : ℝ) * v = 3 ^ 2 * v by ring, Real.sqrt_mul (by norm_num), Real.sqrt_sq (by norm_num : (0 : ℝ) ≤ 3)]
  rw [h3, show ((9 : ℝ) * v) = ((9 * v : ℚ) : ℝ) by push_cast; ring]
  rw [Real.lt_sqrt (abs_nonneg _), sq_abs]
  rw [show ((a : ℝ)) ^ 2 = ((a ^ 2 : ℚ) : ℝ) by push_cast; ring]
  exact Rat.cast_lt

theorem sqrt_lt_point3_median_iff (v m : ℚ) :
    Real.sqrt v < 3 / 10 * (m : ℝ) ↔ 0 < m ∧ v < (3 / 10 * m) ^ 2 := by
  constructor
  · intro h
    have hm : (0 : ℝ) < 3 / 10 * (m : ℝ) := lt_of_le_of_lt (Real.sqrt_nonneg _) h
    have hm' : 0 < m := by
      have : (0 : ℝ) < (m : ℝ) := by nlinarith
      exact_mod_cast this
    refine ⟨hm', ?_⟩
    have h2 := (Real.sqrt_lt' hm).mp h
    have : ((v : ℚ) : ℝ) < (((3 / 10 * m) ^ 2 : ℚ) : ℝ) := by push_cast; push_cast at h2; linarith
    exact_mod_cast this
  · rintro ⟨hm, hlt⟩
    have hm' : (0 : ℝ) < 3 / 10 * (m : ℝ) := by
      have : (0 : ℝ) < (m : ℝ) := by exact_mod_cast hm
      linarith
    apply (Real.sqrt_lt' hm').mpr
    have : ((v : ℚ) : ℝ) < (((3 / 10 * m) ^ 2 : ℚ) : ℝ) := by exact_mod_cast hlt
    push_cast at this ⊢
    linarith

/- =================== C7 =================== -/

/-- C7: for every tile, the robust tile mode equals
`2.5·median − 1.5·mean` of the 3-sigma-clipped sample when the clipped
sample's standard deviation is below `0.3×` its median, and otherwise it
equals the plain median of the whole (unclipped) tile.  The first
conjunct characterises the clipped sample itself: exactly the tile
values within 3 standard deviations of the tile median. -/
theorem c7_robust_tile_mode (tile : List ℚ) :
    (∀ x : ℚ, x ∈ clip_3sigma tile ↔
        x ∈ tile ∧ |(x : ℝ) - (median tile : ℝ)| < 3 * Real.sqrt (variance tile)) ∧
    (clip_3sigma tile ≠ [] →
      Real.sqrt (variance (clip_3sigma tile)) < 3 / 10 * (median (clip_3sigma tile) : ℝ) →
      tile_mode tile = 5 / 2 * median (clip_3sigma tile) - 3 / 2 * mean (clip_3sigma tile)) ∧
    ((clip_3sigma tile = [] ∨
        3 / 10 * (median (clip_3sigma tile) : ℝ) ≤ Real.sqrt (variance (clip_3sigma tile))) →
      tile_mode tile = median tile) := by
  refine ⟨?_, ?_, ?_⟩
  · intro x
    unfold clip_3sigma
    rw [List.mem_filter, decide_eq_true_eq]
    have hb := abs_lt_three_sqrt_iff (x - median tile) (variance tile) (variance_nonneg tile)
    rw [show ((x - median tile : ℚ) : ℝ) = (x : ℝ) - (median tile : ℝ) by push_cast; ring] at hb
    rw [hb]
  · intro hne hlt
    have hb := (sqrt_lt_point3_median_iff (variance (clip_3sigma tile))
      (median (clip_3sigma tile))).mp hlt
    unfold tile_mode
    rw [if_pos ⟨hne, hb.1, hb.2⟩]
  · intro hor
    unfold tile_mode
    rw [if_neg]
    rintro ⟨hne, hm, hv⟩
    rcases hor with h | h
    · exact hne h
    · exact absurd ((sqrt_lt_point3_median_iff _ _).mpr ⟨hm, hv⟩)
        (not_lt.mpr h)

/-- Witness for C7: a concrete tile taking the skew-corrected branch and a
concrete (zero-variance) tile falling back to the plain median. -/
theorem c7_witness :
    tile_mode [10, 10, 10, 11] =
      5 / 2 * median (clip_3sigma [10, 10, 10, 11]) -
        3 / 2 * mean (clip_3sigma [10, 10, 10, 11]) ∧
    tile_mode [10, 10, 10, 10] = median [10, 10, 10, 10] := by
  constructor
  · apply (c7_robust_tile_mode [10, 10, 10, 11]).2.1 (by decide)
    have h1 : variance (clip_3sigma [10, 10, 10, 11]) = 3 / 16 := by decide
    have h2 : median (clip_3sigma [10, 10, 10, 11]) = 10 := by decide
    rw [h1, h2]
    have h3 : Real.sqrt ((3 / 16 : ℚ) : ℝ) < 3 := by
      rw [Real.sqrt_lt' (by norm_num : (0 : ℝ) < 3)]
      norm_num
    calc Real.sqrt ((3 / 16 : ℚ) : ℝ) < 3 := h3
      _ = 3 / 10 * ((10 : ℚ) : ℝ) := by norm_num
  · exact (c7_robust_tile_mode [10, 10, 10, 10]).2.2 (Or.inl (by decide))

/- =================== C2 =================== -/

/-- C2 (amended): the BackgroundEstimator's tiling step succeeds exactly
on images whose (positive) dimensions are both multiples of the tile
size; otherwise the reshape raises `ValueError`, which nothing in the
stage catches. -/
theorem c2_tiling_succeeds_iff_divisible (arr : NpImage) (a b : Nat)
    (hm : 0 < arr.h) (hn : 0 < arr.w) :
    (view_as_blocks_custom arr a b).isOk = true ↔ a ∣ arr.h ∧ b ∣ arr.w := by
  unfold view_as_blocks_custom
  constructor
  · intro hok
    by_cases hc : arr.h * arr.w = arr.h / a * a * (arr.w / b * b)
    · have h1 : arr.h / a * a ≤ arr.h := Nat.div_mul_le_self _ _
      have h2 : arr.w / b * b ≤ arr.w := Nat.div_mul_le_self _ _
      have hx : arr.h / a * a = arr.h := by
        by_contra hne
        have hlt : arr.h / a * a < arr.h := lt_of_le_of_ne h1 hne
        have : arr.h / a * a * (arr.w / b * b) < arr.h * arr.w :=
          lt_of_le_of_lt (Nat.mul_le_mul_left _ h2)
            ((Nat.mul_lt_mul_right hn).mpr hlt)
        omega
      have hy : arr.w / b * b = arr.w := by
        by_contra hne
        have hlt : arr.w / b * b < arr.w := lt_of_le_of_ne h2 hne
        have : arr.h / a * a * (arr.w / b * b) < arr.h * arr.w := by
          calc arr.h / a * a * (arr.w / b * b) ≤ arr.h * (arr.w / b * b) :=
                Nat.mul_le_mul_right _ h1
            _ < arr.h * arr.w := (Nat.mul_lt_mul_left hm).mpr hlt
        omega
      have hxa : a * (arr.h / a) = arr.h := by rw [Nat.mul_comm]; exact hx
      have hyb : b * (arr.w / b) = arr.w := by rw [Nat.mul_comm]; exact hy
      exact ⟨⟨arr.h / a, hxa.symm⟩, ⟨arr.w / b, hyb.symm⟩⟩
    · rw [if_neg hc] at hok
      simp [Except.isOk, Except.toBool] at hok
  · rintro ⟨hda, hdb⟩
    rw [if_pos (by rw [Nat.div_mul_cancel hda, Nat.div_mul_cancel hdb])]
    rfl

/-- A 65 × 64 all-zero image: a perfectly ordinary numeric input whose row
count is not a multiple of the default tile size 64. -/
def badShapeImage : NpImage := ⟨65, 64, fun _ _ => 0⟩

/-- An arbitrary instantiation of the abstracted spline upsampler (its
value is irrelevant: the reshape raises before it is consulted). -/
def anySpline : (Nat → Nat → ℚ) → Nat → Nat → Nat → Nat → ℚ := fun _ _ _ _ _ => 0

/-- C2 counterexample: on a 65 × 64 input the BackgroundEstimator does
not return a corrected array — the tiling reshape raises `ValueError`
and the error propagates through `estimate_square_background`,
`iterative_background_estimation` and `process_image` to the stage
boundary (none of them catches anything). -/
theorem c2_counterexample :
    process_image (fun img => estimate_square_background anySpline img 64)
        (fun img => .ok img) badShapeImage = .error "cannot reshape array" ∧
    ¬ (64 ∣ badShapeImage.h) := by
  exact ⟨rfl, by decide⟩

/-- Witness for C2's amended theorem: the tiling succeeds on a 128 × 64
image and fails on the 65 × 64 image. -/
theorem c2_witness :
    (view_as_blocks_custom ⟨128, 64, fun _ _ => 0⟩ 64 64).isOk = true :=
  (c2_tiling_succeeds_iff_divisible ⟨128, 64, fun _ _ => 0⟩ 64 64
    (by decide) (by decide)).mpr ⟨by decide, by decide⟩

/- =================== C3 =================== -/

/-- A unit of work whose CCD identifier is invalid and whose S3
interactions would succeed. -/
def badCcdDoc : FfiDoc := ⟨"ffi-bad", 5, true, true⟩

/-- C3 counterexample: an invalid CCD identifier is **not** contained to
its unit: `process_single_ffi` raises instead of returning a status
report, and when the main loop retrieves that unit's result the
exception aborts result collection for the whole batch — the remaining
unit (`ffi-b`, a valid CCD 2 document) is never reported. -/
theorem c3_counterexample :
    process_single_ffi badCcdDoc =
      .error "Invalid CCD value; must be 1, 2, 3, or 4." ∧
    collect_results [⟨"ffi-a", 1, true, true⟩, badCcdDoc, ⟨"ffi-b", 2, true, true⟩] =
      .error "Invalid CCD value; must be 1, 2, 3, or 4." := by
  exact ⟨rfl, rfl⟩

theorem collect_results_error_of_mem (docs : List FfiDoc) (d : FfiDoc)
    (hmem : d ∈ docs) (e : String)
    (hd : process_single_ffi d = .error e) :
    ∀ acc : List String,
      ∃ e', docs.foldlM
        (fun acc doc => (process_single_ffi doc).map (fun r => acc ++ [r])) acc =
          .error e' := by
  induction docs with
  | nil => cases hmem
  | cons x xs ih =>
    intro acc
    rcases List.mem_cons.mp hmem with rfl | hmem'
    · refine ⟨e, ?_⟩
      rw [List.foldlM_cons, hd]
      rfl
    · cases hx : process_single_ffi x with
      | error e₂ =>
        refine ⟨e₂, ?_⟩
        rw [List.foldlM_cons, hx]
        rfl
      | ok r =>
        obtain ⟨e', he'⟩ := ih hmem' (acc ++ [r])
        refine ⟨e', ?_⟩
        rw [List.foldlM_cons, hx]
        exact he'

/-- C3 (amended): an invalid CCD identifier (any value other than
1, 2, 3, 4) raises `ValueError` inside `process_single_ffi` — which
catches only the S3 `ClientError`s, so the unit's failure is not turned
into a status report — and retrieving that unit's future in `main`'s
collection loop re-raises it, aborting collection for the whole batch:
a global halt rather than per-unit containment. -/
theorem c3_invalid_ccd_halts (docs : List FfiDoc) (d : FfiDoc)
    (hmem : d ∈ docs) (hdl : d.download_ok = true)
    (h1 : d.ccd ≠ 1) (h2 : d.ccd ≠ 2) (h3 : d.ccd ≠ 3) (h4 : d.ccd ≠ 4) :
    process_single_ffi d = .error "Invalid CCD value; must be 1, 2, 3, or 4." ∧
    ∃ e, collect_results docs = .error e := by
  have hp : process_single_ffi d = .error "Invalid CCD value; must be 1, 2, 3, or 4." := by
    unfold process_single_ffi get_ccd_position
    rw [hdl]
    rw [if_neg (by simp : ¬ (true = false))]
    rw [if_neg h1, if_neg h2, if_neg h3, if_neg h4]
  exact ⟨hp, collect_results_error_of_mem docs d hmem _ hp []⟩

/-- Witness for C3's amended theorem at a concrete one-document batch with
CCD 7. -/
theorem c3_witness :
    process_single_ffi ⟨"ffi-w", 7, true, true⟩ =
      .error "Invalid CCD value; must be 1, 2, 3, or 4." ∧
    ∃ e, collect_results [⟨"ffi-w", 7, true, true⟩] = .error e :=
  c3_invalid_ccd_halts [⟨"ffi-w", 7, true, true⟩] ⟨"ffi-w", 7, true, true⟩
    (List.mem_singleton.mpr rfl) rfl (by decide) (by decide) (by decide) (by decide)

/- =================== C1 =================== -/

/-- C1 (amended): zero pixels above the detection threshold is **not** a
normal no-sources outcome: `filtered_dbscan` raises
`ValueError("No high-intensity pixels found.")` exactly when no pixel of
the corrected image exceeds the flux threshold, and `get_apertures`
does not catch it. -/
theorem c1_zero_candidates_raise (image : GridImage) :
    filtered_dbscan image = .error "No high-intensity pixels found." ↔
      high_intensity_pixels image = [] := by
  unfold filtered_dbscan
  by_cases h : high_intensity_pixels image = [] <;> simp [h]

/-- A 4 × 6 corrected image (values 0, 50, 100) whose flux threshold is
139.5, strictly above every pixel: zero candidate pixels. -/
def zeroCandidateImage : GridImage :=
  [[0, 0, 0, 0, 0, 0],
   [0, 0, 0, 50, 50, 50],
   [50, 100, 100, 100, 100, 100],
   [100, 100, 100, 100, 100, 100]]

set_option maxRecDepth 4000 in
/-- C1 counterexample: on `zeroCandidateImage` no pixel lies above the
detection threshold, yet the clustering step raises `ValueError` instead
of yielding zero apertures. -/
theorem c1_counterexample :
    high_intensity_pixels zeroCandidateImage = [] ∧
    filtered_dbscan zeroCandidateImage =
      .error "No high-intensity pixels found." := by
  constructor
  · decide
  · rfl

set_option maxRecDepth 4000 in
/-- Witness for C1's amended theorem at the concrete zero-candidate
image. -/
theorem c1_witness :
    filtered_dbscan zeroCandidateImage =
      .error "No high-intensity pixels found." :=
  (c1_zero_candidates_raise zeroCandidateImage).mpr (by decide)

/- =================== C4 =================== -/

/-- C4: every Aperture emitted by the detector's final loop has at least
4 member pixels — any cluster with fewer than 4 pixels is skipped before
the world-coordinate conversion, for every possible input (pixels,
refined labels and coordinate transform). -/
theorem c4_aperture_min_pixels (filename : String) (pix2world : ℚ × ℚ → ℚ × ℚ)
    (hi_pixels : List (Nat × Nat)) (refined_labels : List Int) (ap : Aperture)
    (hmem : ap ∈ get_apertures_emit filename pix2world hi_pixels refined_labels) :
    4 ≤ ap.pixels.length := by
  unfold get_apertures_emit at hmem
  obtain ⟨lab, hlab, hsome⟩ := List.mem_filterMap.mp hmem
  dsimp only at hsome
  by_cases hlen :
      (((hi_pixels.zip refined_labels).filter (fun p => p.2 = lab)).map (fun x => x.1)).length < 4
  · rw [if_pos hlen] at hsome
    cases hsome
  · rw [if_neg hlen] at hsome
    cases hsome
    simp only [List.length_map]
    simp only [List.length_map] at hlen
    omega

/-- Witness for C4: a concrete four-pixel cluster produces one aperture
with exactly its 4 member pixels. -/
theorem c4_witness :
    4 ≤ (Aperture.mk "f_0" (1/2, 1/2)
      [(0, 0), (1, 0), (0, 1), (1, 1)]).pixels.length :=
  c4_aperture_min_pixels "f" id [(0, 0), (0, 1), (1, 0), (1, 1)] [0, 0, 0, 0]
    (Aperture.mk "f_0" (1/2, 1/2) [(0, 0), (1, 0), (0, 1), (1, 1)])
    (by decide)

/- =================== C6 =================== -/

/-- The round recurrence as the spec states it: `bgRounds 0` is the pair
of initial independent estimates; one round re-estimates the radial
component from the image minus the current square estimate, then the
square component from the image minus the updated radial estimate. -/
def bgRounds (sq rad : NpImage → NpImage) (image : NpImage) : Nat → NpImage × NpImage
  | 0 => (sq image, rad image)
  | n + 1 =>
    let prev := bgRounds sq rad image n
    let r := rad (imSub image prev.1)
    (sq (imSub image r), r)

theorem foldlM_ok_of_pure {β : Type} (g : β → β) (l : List Nat)
    (f : β → Nat → Except String β) (hf : ∀ b x, f b x = .ok (g b)) :
    ∀ init : β, l.foldlM f init = .ok (g^[l.length] init) := by
  induction l with
  | nil => intro init; rfl
  | cons x xs ih =>
    intro init
    rw [List.foldlM_cons, hf]
    show xs.foldlM f (g init) = _
    rw [ih (g init), List.length_cons, Function.iterate_succ_apply]

/-- C6: with the two estimators lifted to total functions, the embedded
`iterative_background_estimation` performs exactly `n` rounds of the
recurrence on top of the initial estimates (one round: radial from
image − current square, then square from image − updated radial) — the
iteration count is the only stopping criterion — and `process_image`
returns raw − (final square + final radial) after the default 3
rounds. -/
theorem c6_fixed_rounds_and_subtraction (sq rad : NpImage → NpImage)
    (image : NpImage) :
    (∀ n, iterative_background_estimation (fun x => .ok (sq x)) (fun x => .ok (rad x)) image n =
        .ok (imAdd (bgRounds sq rad image n).1 (bgRounds sq rad image n).2)) ∧
    process_image (fun x => .ok (sq x)) (fun x => .ok (rad x)) image =
      .ok (imSub image
        (imAdd (bgRounds sq rad image 3).1 (bgRounds sq rad image 3).2)) := by
  have hiter : ∀ n,
      iterative_background_estimation (fun x => .ok (sq x)) (fun x => .ok (rad x)) image n =
        .ok (imAdd (bgRounds sq rad image n).1 (bgRounds sq rad image n).2) := by
    intro n
    have hstep : ∀ (bt : NpImage × NpImage) (x : Nat),
        (fun (bt : NpImage × NpImage) (_ : Nat) => do
          let new_b_radial ← (fun x => Except.ok (rad x) :
              NpImage → Except String NpImage) (imSub image bt.1)
          let new_b_square ← (fun x => Except.ok (sq x) :
              NpImage → Except String NpImage) (imSub image new_b_radial)
          pure (new_b_square, new_b_radial)) bt x =
          .ok (sq (imSub image (rad (imSub image bt.1))), rad (imSub image bt.1)) :=
      fun bt x => rfl
    have hround : ∀ n, bgRounds sq rad image n =
        (fun bt : NpImage × NpImage =>
          (sq (imSub image (rad (imSub image bt.1))), rad (imSub image bt.1)))^[n]
          (sq image, rad image) := by
      intro n
      induction n with
      | zero => rfl
      | succ k ihk =>
        rw [Function.iterate_succ_apply', ← ihk]
        rfl
    show ((List.range n).foldlM _ (sq image, rad image) >>=
        fun bt => Except.ok (imAdd bt.1 bt.2)) = _
    rw [foldlM_ok_of_pure _ (List.range n) _ hstep (sq image, rad image)]
    rw [List.length_range]
    rw [hround n]
    rfl
  exact ⟨hiter, by
    show (iterative_background_estimation _ _ image 3 >>=
        fun background => Except.ok (imSub image background)) = _
    rw [hiter 3]
    rfl⟩

/- =================== C10 =================== -/

/-- C10: determinism of the BackgroundEstimator.  The embedded stage is a
pure function of the image and its parameters (the two estimators, which
carry the CCD position, tile size, start radius and bin width): two runs
on equal inputs with equal parameters produce equal (bit-identical)
corrected output.  The source's numeric kernel invokes no randomised,
time-dependent or otherwise impure primitive, which is what the purity
of this embedding records. -/
theorem c10_background_estimator_deterministic
    (sqEst₁ sqEst₂ radEst₁ radEst₂ : NpImage → Except String NpImage)
    (image₁ image₂ : NpImage)
    (hsq : sqEst₁ = sqEst₂) (hrad : radEst₁ = radEst₂) (himg : image₁ = image₂) :
    process_image sqEst₁ radEst₁ image₁ = process_image sqEst₂ radEst₂ image₂ ∧
    ∀ n, iterative_background_estimation sqEst₁ radEst₁ image₁ n =
      iterative_background_estimation sqEst₂ radEst₂ image₂ n := by
  subst hsq hrad himg
  exact ⟨rfl, fun _ => rfl⟩

/-- Witness for C10 at a concrete image and concrete estimators. -/
theorem c10_witness :
    process_image (fun x => .ok x) (fun x => .ok x) ⟨2, 2, fun _ _ => 1⟩ =
      process_image (fun x => .ok x) (fun x => .ok x) ⟨2, 2, fun _ _ => 1⟩ :=
  (c10_background_estimator_deterministic _ _ _ _ _ _ rfl rfl rfl).1

/- =================== C8 =================== -/

theorem mapM_npGetWrap (image : NpImage) (l : List (Int × Int))
    (hb : ∀ p ∈ l, 0 ≤ p.1 ∧ p.1 < (image.w : Int) ∧
      0 ≤ p.2 ∧ p.2 < (image.h : Int)) :
    l.mapM (fun p => npGetWrap image p.2 p.1) =
      .ok (l.map (fun p => image.data p.2.toNat p.1.toNat)) := by
  induction l with
  | nil => rfl
  | cons x xs ih =>
    obtain ⟨h1, h2, h3, h4⟩ := hb x (List.mem_cons_self _ _)
    have hx : npGetWrap image x.2 x.1 = .ok (image.data x.2.toNat x.1.toNat) := by
      unfold npGetWrap
      rw [if_pos ⟨by omega, by omega, by omega, by omega⟩]
      rw [if_neg (by omega : ¬ (x.2 < 0)), if_neg (by omega : ¬ (x.1 < 0))]
    rw [List.mapM_cons, hx, ih (fun p hp => hb p (List.mem_cons_of_mem _ hp))]
    rfl

/-- C8: for a matching aperture whose member coordinates round to
non-negative in-bounds pixels (image shape = padded `IMAGE_SHAPE`), the
in-aperture flux is exactly the sum of image values at the
round-to-nearest integer pixels (no interpolation), and the mask flux is
the sum over the pixel bounding box expanded by 5 px on each side and
clamped to the image bounds, minus the in-aperture flux. -/
theorem c8_flux_sums (image : NpImage) (p0 : ℚ × ℚ) (rest : List (ℚ × ℚ))
    (hh : image.h = 2136) (hw : image.w = 2078)
    (hb : ∀ p ∈ p0 :: rest, 0 ≤ npRound p.1 ∧ npRound p.1 < (image.w : Int) ∧
        0 ≤ npRound p.2 ∧ npRound p.2 < (image.h : Int)) :
    compute_fluxes image (p0 :: rest) =
      .ok (((p0 :: rest).map
            (fun p => image.data (npRound p.2).toNat (npRound p.1).toNat)).sum,
        sliceSum image
          (max 0 ((rest.map (fun p => npRound p.2)).foldl min (npRound p0.2) - 5))
          (min ((image.h : Int) - 1)
            ((rest.map (fun p => npRound p.2)).foldl max (npRound p0.2) + 5) + 1)
          (max 0 ((rest.map (fun p => npRound p.1)).foldl min (npRound p0.1) - 5))
          (min ((image.w : Int) - 1)
            ((rest.map (fun p => npRound p.1)).foldl max (npRound p0.1) + 5) + 1) -
          ((p0 :: rest).map
            (fun p => image.data (npRound p.2).toNat (npRound p.1).toNat)).sum) := by
  have hb' : ∀ p ∈ (p0 :: rest).map (fun p => (npRound p.1, npRound p.2)),
      0 ≤ p.1 ∧ p.1 < (image.w : Int) ∧ 0 ≤ p.2 ∧ p.2 < (image.h : Int) := by
    intro p hp
    obtain ⟨q, hq, rfl⟩ := List.mem_map.mp hp
    exact hb q hq
  unfold compute_fluxes
  dsimp only
  rw [mapM_npGetWrap image _ hb']
  rw [hh, hw]
  simp only [List.map_map]
  rfl

/-- Witness for C8 at a concrete image (value `i + j` at pixel `(i, j)`)
and a single projected coordinate `(3.4, 2.6)`: the flux computation
succeeds. -/
theorem c8_witness :
    (compute_fluxes ⟨2136, 2078, fun i j => (i : ℚ) + (j : ℚ)⟩
      [((17/5 : ℚ), (13/5 : ℚ))]).isOk = true := by
  rw [c8_flux_sums ⟨2136, 2078, fun i j => (i : ℚ) + (j : ℚ)⟩ ((17/5 : ℚ), (13/5 : ℚ)) []
    rfl rfl (by decide)]
  rfl

/- =================== C9 =================== -/

/-- A corrected image of the pipeline's shape holding value 7 at the
right-edge pixel `(0, 2077)` and 0 elsewhere. -/
def oppositeEdgeImage : NpImage :=
  ⟨2136, 2078, fun i j => if i = 0 ∧ j = 2077 then 7 else 0⟩

/-- C9: `compute_fluxes` performs no bounds check on projected pixel
coordinates.  The member coordinate `(−0.6, 0)` rounds to pixel
`x = −1`; instead of raising or skipping the aperture, the returned
in-aperture flux is silently read from the opposite edge of the image —
column 2077, whose value 7 is returned — and the computation reports
success. -/
theorem c9_negative_index_wraps :
    npRound (-(3/5) : ℚ) = -1 ∧
    compute_fluxes oppositeEdgeImage [(-(3/5 : ℚ), 0)] =
      .ok (oppositeEdgeImage.data 0 2077, -oppositeEdgeImage.data 0 2077) ∧
    oppositeEdgeImage.data 0 2077 = 7 := by
  refine ⟨by decide, ?_, by decide⟩
  rfl

/- =================== C5 =================== -/

theorem foldl_best_mem (d : Cell → Nat) :
    ∀ (xs : List Cell) (b : Cell),
      xs.foldl (fun b q => if d b < d q then q else b) b ∈ b :: xs := by
  intro xs
  induction xs with
  | nil => intro b; exact List.mem_singleton.mpr rfl
  | cons y ys ih =>
    intro b
    rw [List.foldl_cons]
    by_cases hd : d b < d y
    · rw [if_pos hd]
      rcases List.mem_cons.mp (ih y) with h | h
      · rw [h]; exact List.mem_cons_of_mem _ (List.mem_cons_self _ _)
      · exact List.mem_cons_of_mem _ (List.mem_cons_of_mem _ h)
    · rw [if_neg hd]
      rcases List.mem_cons.mp (ih b) with h | h
      · rw [h]; exact List.mem_cons_self _ _
      · exact List.mem_cons_of_mem _ (List.mem_cons_of_mem _ h)

theorem pickBest_mem (d : Cell → Nat) (l : List Cell) (c : Cell)
    (h : pickBest d l = some c) : c ∈ l := by
  match l with
  | [] => cases h
  | x :: xs =>
    unfold pickBest at h
    cases h
    exact foldl_best_mem d xs x

theorem wsCandidates_unlabelled (cells : List Cell) (mask : Cell → Bool)
    (assign : LabelState) (c : Cell) (h : c ∈ wsCandidates cells mask assign) :
    labelLookup assign c = 0 := by
  unfold wsCandidates at h
  have h2 := (List.mem_filter.mp h).2
  simp only [Bool.and_eq_true, beq_iff_eq] at h2
  exact h2.1.2

theorem labelLookup_append_of_ne_zero (assign l : LabelState) (c : Cell)
    (h : labelLookup assign c ≠ 0) :
    labelLookup (assign ++ l) c = labelLookup assign c := by
  unfold labelLookup at h ⊢
  cases hf : assign.find? (fun e => e.1 = c) with
  | none => rw [hf] at h; exact absurd rfl h
  | some e => rw [List.find?_append, hf]; rfl

theorem floodStep_preserves (d : Cell → Nat) (cells : List Cell)
    (mask : Cell → Bool) (assign : LabelState) (c : Cell)
    (h : labelLookup assign c ≠ 0) :
    labelLookup (floodStep d cells mask assign) c = labelLookup assign c := by
  unfold floodStep
  cases hp : pickBest d (wsCandidates cells mask assign) with
  | none => rfl
  | some p =>
    dsimp only
    cases hq : (neighbors4 p).find? (fun q => labelLookup assign q != 0) with
    | none => rfl
    | some q => exact labelLookup_append_of_ne_zero assign _ c h

theorem floodIter_preserves (d : Cell → Nat) (cells : List Cell)
    (mask : Cell → Bool) (assign : LabelState) (c : Cell)
    (h : labelLookup assign c ≠ 0) (n : Nat) :
    labelLookup ((floodStep d cells mask)^[n] assign) c = labelLookup assign c := by
  induction n with
  | zero => rfl
  | succ k ih =>
    rw [Function.iterate_succ_apply',
      floodStep_preserves d cells mask _ c (by rw [ih]; exact h), ih]

theorem markerState_lookup (comps : List (List Cell)) (cells : List Cell)
    (c : Cell) (hmem : c ∈ cells) (hnz : markersAt comps c ≠ 0) :
    labelLookup (markerState comps cells) c = markersAt comps c := by
  induction cells with
  | nil => cases hmem
  | cons x xs ih =>
    by_cases hcx : c = x
    · subst hcx
      cases hx : markersAt comps c with
      | zero => exact absurd hx hnz
      | succ n =>
        simp only [markerState, hx]
        unfold labelLookup
        rw [List.find?_cons_of_pos _ (by simp)]
    · have hmem' : c ∈ xs := by
        rcases List.mem_cons.mp hmem with h | h
        · exact absurd h hcx
        · exact h
      cases hx : markersAt comps x with
      | zero =>
        simp only [markerState, hx]
        exact ih hmem'
      | succ n =>
        simp only [markerState, hx]
        unfold labelLookup at ih ⊢
        rw [List.find?_cons_of_neg _ (by simp [Ne.symm hcx])]
        exact ih hmem'

theorem closure_contains_seed (isM : Cell → Bool) (fuel : Nat) (seed : Cell) :
    seed ∈ closure isM fuel seed := by
  unfold closure
  induction fuel with
  | zero => exact List.mem_singleton.mpr rfl
  | succ k ih =>
    rw [Function.iterate_succ_apply']
    unfold closureStep
    exact List.mem_append_left _ ih

theorem markersAt_append_first (acc : List (List Cell)) (cl : List Cell)
    (ext : List (List Cell)) (p : Cell)
    (hnot : ∀ comp ∈ acc, p ∉ comp) (hin : p ∈ cl) :
    markersAt (acc ++ cl :: ext) p = acc.length + 1 := by
  induction acc with
  | nil =>
    rw [List.nil_append]
    show markersAt (cl :: ext) p = 1
    simp only [markersAt]
    rw [if_pos (by simpa using hin)]
  | cons a acc' ih =>
    have hpa : p ∉ a := hnot a (List.mem_cons_self _ _)
    rw [List.cons_append]
    simp only [markersAt]
    rw [if_neg (by simpa using hpa)]
    rw [ih (fun comp hc => hnot comp (List.mem_cons_of_mem _ hc))]
    rfl

theorem buildComps_presence (isM : Cell → Bool) (fuel : Nat) (base : List Cell) :
    ∀ (cells : List Cell), (∀ c ∈ cells, c ∈ base) →
    ∀ (acc : List (List Cell)),
      (∀ k, k < acc.length → ∃ c, c ∈ base ∧
        ∀ ext, markersAt (acc ++ ext) c = k + 1) →
      ∀ k, k < (buildComps isM fuel cells acc).length →
        ∃ c, c ∈ base ∧ markersAt (buildComps isM fuel cells acc) c = k + 1 := by
  intro cells
  induction cells with
  | nil =>
    intro _ acc hacc k hk
    obtain ⟨c, hcb, hc⟩ := hacc k hk
    refine ⟨c, hcb, ?_⟩
    have := hc []
    rwa [List.append_nil] at this
  | cons p rest ih =>
    intro hsub acc hacc
    show ∀ k, k < (buildComps isM fuel (p :: rest) acc).length → _
    unfold buildComps
    by_cases hcond : (isM p && !acc.any fun comp => comp.contains p) = true
    · rw [if_pos hcond]
      apply ih (fun c hc => hsub c (List.mem_cons_of_mem _ hc))
      intro k hk
      rw [List.length_append, List.length_singleton] at hk
      by_cases hlt : k < acc.length
      · obtain ⟨c, hcb, hc⟩ := hacc k hlt
        refine ⟨c, hcb, fun ext => ?_⟩
        rw [List.append_assoc]
        exact hc _
      · have hkeq : k = acc.length := by omega
        subst hkeq
        refine ⟨p, hsub p (List.mem_cons_self _ _), fun ext => ?_⟩
        rw [List.append_assoc, List.singleton_append]
        apply markersAt_append_first
        · intro comp hcomp
          have hcond' := hcond
          simp only [Bool.and_eq_true, Bool.not_eq_true'] at hcond'
          have := List.any_eq_false.mp hcond'.2 comp hcomp
          simpa using this
        · exact closure_contains_seed isM fuel p
    · rw [if_neg hcond]
      exact ih (fun c hc => hsub c (List.mem_cons_of_mem _ hc)) acc hacc

theorem labelComps_presence (patch : Patch) (k : Nat)
    (hk : k < (labelComps patch).length) :
    ∃ c, c ∈ allCells (patchRows patch) (patchCols patch) ∧
      markersAt (labelComps patch) c = k + 1 := by
  unfold labelComps at hk ⊢
  exact buildComps_presence (markerCell patch) (patchRows patch * patchCols patch)
    (allCells (patchRows patch) (patchCols patch))
    (allCells (patchRows patch) (patchCols patch)) (fun c hc => hc) []
    (fun k hk => absurd hk (by simp)) k hk

/-- C5: for every blob handed to watershed splitting (as its bounding-box
patch, with the source's minimum pixel count 8, and having at least one
in-patch background pixel so the distance transform is well defined):
if the pixel count is below 8, or the distance-transform local-maxima
detection finds fewer than two markers, the blob is kept as exactly one
label unchanged from the input (`patch.astype(int)`); if it contains at
least two well-separated peaks — at least two marker components — it is
split into at least two distinct output labels by the watershed flood. -/
theorem c5_watershed_patch_split (row_min row_max col_min col_max : Nat)
    (patch : Patch) :
    (patchSum patch < 8 →
      (watershed_patch (row_min, row_max, col_min, col_max, patch, 8)).2.2.2.2 =
        fun c => if fgAt patch c then 1 else 0) ∧
    (8 ≤ patchSum patch → bgCells patch ≠ [] → (labelComps patch).length < 2 →
      (watershed_patch (row_min, row_max, col_min, col_max, patch, 8)).2.2.2.2 =
        fun c => if fgAt patch c then 1 else 0) ∧
    (8 ≤ patchSum patch → bgCells patch ≠ [] → 2 ≤ (labelComps patch).length →
      ∃ c₁ c₂ : Cell,
        0 < (watershed_patch (row_min, row_max, col_min, col_max, patch, 8)).2.2.2.2 c₁ ∧
        0 < (watershed_patch (row_min, row_max, col_min, col_max, patch, 8)).2.2.2.2 c₂ ∧
        (watershed_patch (row_min, row_max, col_min, col_max, patch, 8)).2.2.2.2 c₁ ≠
          (watershed_patch (row_min, row_max, col_min, col_max, patch, 8)).2.2.2.2 c₂) := by
  have hwp : (watershed_patch (row_min, row_max, col_min, col_max, patch, 8)).2.2.2.2 =
      if patchSum patch < 8 then (fun c => if fgAt patch c then 1 else 0)
      else if (labelComps patch).length < 2 then (fun c => if fgAt patch c then 1 else 0)
      else watershedFlood (edtSq patch) (labelComps patch) (fgAt patch)
        (allCells (patchRows patch) (patchCols patch)) := rfl
  refine ⟨?_, ?_, ?_⟩
  · intro h8
    rw [hwp, if_pos h8]
  · intro h8 _hbg hn
    rw [hwp, if_neg (Nat.not_lt.mpr h8), if_pos hn]
  · intro h8 _hbg hn
    have key : ∀ c k, c ∈ allCells (patchRows patch) (patchCols patch) →
        markersAt (labelComps patch) c = k → k ≠ 0 →
        watershedFlood (edtSq patch) (labelComps patch) (fgAt patch)
          (allCells (patchRows patch) (patchCols patch)) c = k := by
      intro c k hcb hmk hk0
      unfold watershedFlood
      have hinit : labelLookup
          (markerState (labelComps patch) (allCells (patchRows patch) (patchCols patch))) c = k := by
        rw [markerState_lookup _ _ c hcb (by rw [hmk]; exact hk0)]
        exact hmk
      rw [floodIter_preserves _ _ _ _ c (by rw [hinit]; exact hk0), hinit]
    obtain ⟨c₁, hc₁b, hc₁⟩ := labelComps_presence patch 0 (by omega)
    obtain ⟨c₂, hc₂b, hc₂⟩ := labelComps_presence patch 1 (by omega)
    have e₁ := key c₁ 1 hc₁b hc₁ one_ne_zero
    have e₂ := key c₂ 2 hc₂b hc₂ (by omega)
    rw [hwp, if_neg (Nat.not_lt.mpr h8), if_neg (Nat.not_lt.mpr hn)]
    exact ⟨c₁, c₂, by rw [e₁]; omega, by rw [e₂]; omega, by rw [e₁, e₂]; omega⟩

/-- A 2-pixel patch: below the 8-pixel minimum. -/
def smallPatch : Patch := [[true, true]]

/-- A 3 × 4 patch, one foreground block and a background column: one
marker component. -/
def onePeakPatch : Patch :=
  [[true, true, true, false],
   [true, true, true, false],
   [true, true, true, false]]

/-- A 3 × 7 patch with two foreground blocks separated by a background
column: two marker components (two well-separated peaks). -/
def twoPeakPatch : Patch :=
  [[true, true, true, false, true, true, true],
   [true, true, true, false, true, true, true],
   [true, true, true, false, true, true, true]]

set_option maxRecDepth 4000 in
/-- Witness for C5 at three concrete patches: a tiny blob kept unchanged,
a single-peak blob kept unchanged, and a two-peak blob split into at
least two labels. -/
theorem c5_witness :
    ((watershed_patch (0, 1, 0, 2, smallPatch, 8)).2.2.2.2 =
        fun c => if fgAt smallPatch c then 1 else 0) ∧
    ((watershed_patch (0, 3, 0, 4, onePeakPatch, 8)).2.2.2.2 =
        fun c => if fgAt onePeakPatch c then 1 else 0) ∧
    (∃ c₁ c₂ : Cell,
        0 < (watershed_patch (0, 3, 0, 7, twoPeakPatch, 8)).2.2.2.2 c₁ ∧
        0 < (watershed_patch (0, 3, 0, 7, twoPeakPatch, 8)).2.2.2.2 c₂ ∧
        (watershed_patch (0, 3, 0, 7, twoPeakPatch, 8)).2.2.2.2 c₁ ≠
          (watershed_patch (0, 3, 0, 7, twoPeakPatch, 8)).2.2.2.2 c₂) :=
  ⟨(c5_watershed_patch_split 0 1 0 2 smallPatch).1 (by decide),
   (c5_watershed_patch_split 0 3 0 4 onePeakPatch).2.1 (by decide) (by decide) (by decide),
   (c5_watershed_patch_split 0 3 0 7 twoPeakPatch).2.2 (by decide) (by decide) (by decide)⟩

end Tess
